import Mathlib

/-!
Shallow embedding of `area_map_script.py`, the PLSS area-map selection and
clipping pipeline.

Modelling conventions:
* Python strings are modelled as lists of Unicode code points (`List Nat`);
  every identifier, token and configuration text of interest is ASCII.
  `pyStr` converts a Lean string literal into that model.
* pandas column operations (`.str[a:b]`, `.str[i]`, `.str.upper()`, `==`,
  `isin`, boolean-mask `|`) act element-wise, so a `GeoDataFrame` row set is
  modelled as a `List Feature` and a boolean mask combination as a single
  `List.filter` whose predicate is the disjunction over requested keys.
  An out-of-range pandas `.str[i]` yields `NaN`, which compares unequal to
  every string; this is modelled by `Option Nat` with `none` on the left of
  an `==` against `some _`.
* External geometry collaborators (dissolve/union, explode, reprojection,
  geometric clip) are abstract function parameters, exactly the interface
  boundary drawn by the design document.
-/

/-- Convert a Lean string literal into the code-point list model used
throughout this development. -/
def pyStr (s : String) : List Nat := s.toList.map Char.toNat

/-- Python `str.upper()` on one code point (ASCII range, which covers every
input the script manipulates). -/
def pyUpper (c : Nat) : Nat := if 97 ≤ c ∧ c ≤ 122 then c - 32 else c

/-- Python `str.lower()` on one code point (ASCII range). -/
def pyLower (c : Nat) : Nat := if 65 ≤ c ∧ c ≤ 90 then c + 32 else c

/-- ASCII decimal digit test, the fragment of Python `str.isdigit` / regex
`\d` exercised by the script. -/
def isDigitCode (c : Nat) : Bool := decide (48 ≤ c ∧ c ≤ 57)

/-- Decimal digit expansion of `n` as code points, most significant first,
with explicit fuel (`fuel ≥ n` suffices).  Empty for `n = 0`. -/
def decDigitsAux : Nat → Nat → List Nat
  | 0, _ => []
  | _ + 1, 0 => []
  | f + 1, n + 1 => decDigitsAux f ((n + 1) / 10) ++ [48 + (n + 1) % 10]

/-- Python `f"{n:0wd}"`: decimal digits of `n`, left-padded with `'0'` (48)
to width `w`. -/
def pyFormat0 (w n : Nat) : List Nat :=
  let ds := if n = 0 then [48] else decDigitsAux n n
  List.replicate (w - ds.length) 48 ++ ds

/-- Python `f"{n:03d}"`, the township/range digit triple of the matchers. -/
def fmt03 (n : Nat) : List Nat := pyFormat0 3 n

/-- Python `f"{n:02d}"`, the two-digit section code of the section matcher. -/
def fmt02 (n : Nat) : List Nat := pyFormat0 2 n

/-- Python slice `s[a:b]` with nonnegative bounds (truncating on short
strings, exactly like pandas `.str[a:b]`). -/
def pySlice (l : List Nat) (a b : Nat) : List Nat := (l.drop a).take (b - a)

/-- A township/range key `(t_num, t_dir, r_num, r_dir)`; the direction
letters are stored as code points. -/
structure TRKey where
  tNum : Nat
  tDir : Nat
  rNum : Nat
  rDir : Nat
deriving DecidableEq, Repr

/-- `PLSSID[4:7]`, the three township digits (pandas `pl.str[4:7]`). -/
def t_code3 (pl : List Nat) : List Nat := pySlice pl 4 7

/-- `PLSSID[8]` upper-cased, the township direction (pandas
`pl.str[8].str.upper()`; `none` models `NaN` on short strings). -/
def t_dirU (pl : List Nat) : Option Nat := (pl.get? 8).map pyUpper

/-- `PLSSID[9:12]`, the three range digits (pandas `pl.str[9:12]`). -/
def r_code3 (pl : List Nat) : List Nat := pySlice pl 9 12

/-- `PLSSID[13]` upper-cased, the range direction. -/
def r_dirU (pl : List Nat) : Option Nat := (pl.get? 13).map pyUpper

/-- The four fixed-offset fragments the matchers extract from a `PLSSID`
string. -/
def decodeTR (pl : List Nat) : List Nat × Option Nat × List Nat × Option Nat :=
  (t_code3 pl, t_dirU pl, r_code3 pl, r_dirU pl)

/-- One conjunct of the boolean mask built by `filter_by_plssid_trs` for a
single requested key: all four decoded fragments equal the key's formatted
components. -/
def matchesTR (k : TRKey) (pl : List Nat) : Bool :=
  t_code3 pl == fmt03 k.tNum && t_dirU pl == some k.tDir &&
    r_code3 pl == fmt03 k.rNum && r_dirU pl == some k.rDir

/-- One row of a land-survey layer: the two identifier attributes the script
reads (`PLSSID` and `FRSTDIVID`).  Geometry and further attributes play no
role in the matching logic. -/
structure Feature where
  plssid : List Nat
  frstdivid : List Nat
deriving DecidableEq, Repr

/-- `filter_by_plssid_trs`: keep the rows whose decoded `PLSSID` fragments
equal at least one requested key (the per-key masks are OR-ed into
`mask_total`, then the frame is filtered once by that mask). -/
def filter_by_plssid_trs (gdf : List Feature) (trs_list : List TRKey) : List Feature :=
  gdf.filter (fun f => trs_list.any (fun k => matchesTR k f.plssid))

/-- Python `fr[-3:-1]` (pandas `fr.str[-3:-1]`): the two characters before
the final character, truncating on short strings. -/
def secCode2 (fr : List Nat) : List Nat :=
  (fr.drop (fr.length - 3)).take (fr.length - 1 - (fr.length - 3))

/-- The per-key mask of `select_sections_by_trs_and_numbers`: the four
township/range fragments match and the two-character section code of
`FRSTDIVID` is in the formatted section set. -/
def matchesTRS (k : TRKey) (secs : List Nat) (f : Feature) : Bool :=
  matchesTR k f.plssid && secs.any (fun s => secCode2 f.frstdivid == fmt02 s)

/-- `select_sections_by_trs_and_numbers`: section-level selection.  Keys
whose section list is empty are skipped (`if not sec_list: continue`); the
remaining per-key masks are OR-ed and the frame filtered once. -/
def select_sections_by_trs_and_numbers (gdf : List Feature)
    (trs_sections : List (TRKey × List Nat)) : List Feature :=
  gdf.filter (fun f =>
    trs_sections.any (fun kv => !kv.2.isEmpty && matchesTRS kv.1 kv.2 f))

/-- A whitespace-separated token of the configuration text. -/
abbrev Tok := List Nat

/-- Python `str.split()` whitespace classes (space, tab, newline, vertical
tab, form feed, carriage return). -/
def pyIsSpace (c : Nat) : Bool := decide (c = 32 ∨ c = 9 ∨ c = 10 ∨ c = 11 ∨ c = 12 ∨ c = 13)

/-- The punctuation normalisation of `parse_config_map`: `":" "," ";" "."`
are replaced by spaces. -/
def normPunct (c : Nat) : Nat := if c = 58 ∨ c = 44 ∨ c = 59 ∨ c = 46 then 32 else c

/-- Tokenisation of `parse_config_map`: normalise punctuation, then
`text.split()` (split on whitespace runs, dropping empty pieces). -/
def tokenize (text : List Nat) : List Tok :=
  (List.splitOnP pyIsSpace (text.map normPunct)).filter (fun t => !t.isEmpty)

/-- `tok.lower() == "county"` (code points of `"county"`). -/
def isCountyTok (t : Tok) : Bool := t.map pyLower == pyStr "county"

/-- `tok.lower() == "section"`. -/
def isSectionTok (t : Tok) : Bool := t.map pyLower == pyStr "section"

/-- `tok.isdigit()` (ASCII): nonempty and all decimal digits. -/
def isDigitTok (t : Tok) : Bool := !t.isEmpty && t.all isDigitCode

/-- Python `int(...)` on a decimal digit string. -/
def digitsToNat (ds : List Nat) : Nat := ds.foldl (fun a c => a * 10 + (c - 48)) 0

/-- The anchored, case-insensitive regex `^T(\d+)([NS])\-R(\d+)([EW])$` of
`parse_config_map`, returning the key `(int(g1), g2.upper(), int(g3),
g4.upper())` on a match.  Code points: 84 `T`, 78 `N`, 83 `S`, 45 `-`,
82 `R`, 69 `E`, 87 `W`. -/
def matchTR (tok : Tok) : Option TRKey :=
  match tok with
  | [] => none
  | c :: r1 =>
    if pyUpper c ≠ 84 then none
    else
      let ds1 := r1.takeWhile isDigitCode
      if ds1.isEmpty then none
      else
        match r1.dropWhile isDigitCode with
        | [] => none
        | d1 :: r3 =>
          if pyUpper d1 ≠ 78 ∧ pyUpper d1 ≠ 83 then none
          else
            match r3 with
            | 45 :: rc :: r4 =>
              if pyUpper rc ≠ 82 then none
              else
                let ds2 := r4.takeWhile isDigitCode
                if ds2.isEmpty then none
                else
                  match r4.dropWhile isDigitCode with
                  | [d2] =>
                    if pyUpper d2 ≠ 69 ∧ pyUpper d2 ≠ 87 then none
                    else some ⟨digitsToNat ds1, pyUpper d1, digitsToNat ds2, pyUpper d2⟩
                  | _ => none
            | _ => none

/-- The section-list mapping of `parse_config_map`: an insertion-ordered
association list `(t_num, t_dir, r_num, r_dir) → list of section numbers`,
mirroring a Python `dict`. -/
abbrev TrsSections := List (TRKey × List Nat)

/-- `if key not in trs_sections: trs_sections[key] = []` — dict insertion
appends a fresh key at the end, existing keys are left alone. -/
def ensureKey (m : TrsSections) (k : TRKey) : TrsSections :=
  if m.any (fun kv => kv.1 == k) then m else m ++ [(k, [])]

/-- `trs_sections[key].append(sec_num)`. -/
def appendSec (m : TrsSections) (k : TRKey) (s : Nat) : TrsSections :=
  m.map (fun kv => if kv.1 == k then (kv.1, kv.2 ++ [s]) else kv)

/-- The inner `while` loop of `parse_config_map`: greedily consume
`"Section" <digits>` pairs right after a key token, appending each number to
the key's list.  A `"Section"` not followed by a digit token is consumed and
the loop breaks, resuming the outer scan at the offending token.  Returns
the updated mapping and the unconsumed tokens. -/
def scanSecs (k : TRKey) : List Tok → TrsSections → TrsSections × List Tok
  | [], m => (m, [])
  | [t], m => if isSectionTok t then (m, []) else (m, [t])
  | t :: d :: rest, m =>
    if isSectionTok t then
      if isDigitTok d then scanSecs k rest (appendSec m k (digitsToNat d))
      else (m, d :: rest)
    else (m, t :: d :: rest)

/-- The outer scanning loop of `parse_config_map` over the token sequence:
`"County" <name>` updates the county, a township/range token opens a key and
hands control to `scanSecs`, everything else is skipped.  The loop advances
the index by at least one per iteration, so it performs at most as many
iterations as there are tokens; that bound is made explicit as structural
fuel (the caller passes the token count, which `scanTokens_fuel_irrel`
below shows is always enough). -/
def scanTokens : Nat → List Tok → Option Tok → TrsSections → Option Tok × TrsSections
  | _, [], county, m => (county, m)
  | 0, _ :: _, county, m => (county, m)
  | fuel + 1, t :: rest, county, m =>
    if h : isCountyTok t ∧ rest ≠ [] then
      scanTokens fuel rest.tail (some (rest.head h.2)) m
    else
      match matchTR t with
      | some k =>
        scanTokens fuel (scanSecs k rest (ensureKey m k)).2 county
          (scanSecs k rest (ensureKey m k)).1
      | none => scanTokens fuel rest county m

/-- Run the outer scan on a token sequence with adequate fuel. -/
def runScan (toks : List Tok) : Option Tok × TrsSections :=
  scanTokens toks.length toks none []

/-- Python `sorted` on key tuples, as an insertion sort with the natural
lexicographic order on `(t_num, t_dir, r_num, r_dir)` (direction letters
compare by code point, exactly like one-character Python strings). -/
def keyLE (a b : TRKey) : Bool :=
  decide (a.tNum < b.tNum) ||
    (decide (a.tNum = b.tNum) &&
      (decide (a.tDir < b.tDir) ||
        (decide (a.tDir = b.tDir) &&
          (decide (a.rNum < b.rNum) ||
            (decide (a.rNum = b.rNum) && decide (a.rDir ≤ b.rDir))))))

/-- Insert a key into an already-sorted list. -/
def insertKey (k : TRKey) : List TRKey → List TRKey
  | [] => [k]
  | x :: xs => if keyLE k x then k :: x :: xs else x :: insertKey k xs

/-- Sort the key list (the keys of a dict are distinct, so any stable or
unstable sort agrees with Python's `sorted`). -/
def sortKeys (l : List TRKey) : List TRKey := l.foldr insertKey []

/-- The result record of `parse_config_map`: county name (or `none`), the
sorted key list, and the per-key section-number mapping. -/
structure ParseResult where
  county : Option Tok
  trs_list : List TRKey
  trs_sections : TrsSections
deriving DecidableEq, Repr

/-- `parse_config_map` on the configuration text (the file-existence check
is outside the model): tokenize, scan, and fail (`ValueError`, modelled as
`none`) exactly when no key was collected. -/
def parse_config_map (text : List Nat) : Option ParseResult :=
  let r := runScan (tokenize text)
  if r.2.isEmpty then none
  else some ⟨r.1, sortKeys (r.2.map Prod.fst), r.2⟩

/-- The keys of a section mapping, in insertion order. -/
def keysOf (m : TrsSections) : List TRKey := m.map Prod.fst

/-- The keys decoded from the township/range tokens of a token sequence. -/
def decodedKeys (toks : List Tok) : List TRKey := toks.filterMap matchTR

/-- A token sequence with no `"County"` token (so no token can be consumed
as a county name). -/
def noCountyTok (toks : List Tok) : Bool := toks.all (fun t => !isCountyTok t)

/-- Accumulate one key into a key list, keeping the first occurrence only —
the key-set effect of `ensureKey`. -/
def addKey (ks : List TRKey) (k : TRKey) : List TRKey :=
  if k ∈ ks then ks else ks ++ [k]

/-- Dict lookup on the section mapping: the section list stored at `k`
(first entry wins), empty when the key is absent. -/
def getSecs : TrsSections → TRKey → List Nat
  | [], _ => []
  | kv :: tl, k => if kv.1 = k then kv.2 else getSecs tl k

/-- The token-consumption effect of the inner `"Section" <digits>` loop in
isolation: the section numbers it collects, in encounter order, and the
unconsumed tokens.  Same branch structure as `scanSecs`, without the
mapping. -/
def grabSecs : List Tok → List Nat × List Tok
  | [] => ([], [])
  | [t] => if isSectionTok t then ([], []) else ([], [t])
  | t :: d :: rest =>
    if isSectionTok t then
      if isDigitTok d then
        (digitsToNat d :: (grabSecs rest).1, (grabSecs rest).2)
      else ([], d :: rest)
    else ([], t :: d :: rest)

/-- The section numbers the scan attaches to the key `q` across *all*
appearances of `q` in a county-free token sequence, in encounter order:
every township/range token opens its key and the following
`"Section" <digits>` pairs contribute to that key. -/
def secsFor (q : TRKey) : Nat → List Tok → List Nat
  | _, [] => []
  | 0, _ :: _ => []
  | fuel + 1, t :: rest =>
    match matchTR t with
    | some k =>
      (if k = q then (grabSecs rest).1 else []) ++ secsFor q fuel (grabSecs rest).2
    | none => secsFor q fuel rest

/-- `dissolve_townships_for_clip`: raise (`RuntimeError`, modelled as
`none`) when the selection is empty, otherwise union all geometries into one
combined geometry (`dissolve`, an external geometry collaborator) and
decompose it into single parts (`explode`).  The geometry operations are
abstract parameters, exactly the collaborator interface of the design. -/
def dissolve_townships_for_clip {α β : Type} (dissolve : List α → β)
    (explode : β → List β) (townships : List α) : Option (List β) :=
  if townships.isEmpty then none
  else some (explode (dissolve townships))

/-- A vector layer as the Clip Engine sees it: a coordinate reference
system identifier plus the row collection. -/
structure GeoFrame (α : Type) where
  crs : Nat
  rows : List α
deriving DecidableEq, Repr

/-- `clip_parcels` (the file read is outside the model, so the parcels
frame is a parameter): an empty parcel layer is returned unchanged; the
clip mask is reprojected (`toCrs`, external) to the parcel layer's system
exactly when the systems differ; then the geometric intersection (`gclip`,
external) of the parcels against the mask is returned. -/
def clip_parcels {α β : Type} (toCrs : GeoFrame β → Nat → GeoFrame β)
    (gclip : GeoFrame α → GeoFrame β → GeoFrame α)
    (parcels : GeoFrame α) (clip_gdf : GeoFrame β) : GeoFrame α :=
  if parcels.rows.isEmpty then parcels
  else if clip_gdf.crs ≠ parcels.crs then gclip parcels (toCrs clip_gdf parcels.crs)
  else gclip parcels clip_gdf

/-! ### General lemmas about the scanning loop -/

/-- The token list left over by `scanSecs` is a suffix of its input: the
inner loop only ever consumes tokens from the front. -/
theorem scanSecs_suffix (k : TRKey) :
    ∀ (toks : List Tok) (m : TrsSections), (scanSecs k toks m).2 <:+ toks
  | [], _ => by simp [scanSecs]
  | [t], m => by
    by_cases h : isSectionTok t <;> simp [scanSecs, h, List.nil_suffix, List.suffix_refl]
  | t :: d :: rest, m => by
    by_cases h1 : isSectionTok t
    · by_cases h2 : isDigitTok d
      · have ih := scanSecs_suffix k rest (appendSec m k (digitsToNat d))
        simp only [scanSecs, h1, h2, if_true]
        exact ih.trans ((rest.suffix_cons d).trans ((d :: rest).suffix_cons t))
      · simp only [scanSecs, h1, h2, if_true, if_false]
        exact (d :: rest).suffix_cons t
    · simp [scanSecs, h1, List.suffix_refl]

/-- Any fuel of at least the token count produces the same scan result:
the fuel-exhausted branch of `scanTokens` is unreachable, so the fuel is an
artefact of the encoding, not part of the modelled behaviour. -/
theorem scanTokens_fuel_irrel :
    ∀ (f g : Nat) (toks : List Tok) (c : Option Tok) (m : TrsSections),
      toks.length ≤ f → toks.length ≤ g →
      scanTokens f toks c m = scanTokens g toks c m
  | _, _, [], _, _, _, _ => by simp [scanTokens]
  | f + 1, g + 1, t :: rest, c, m, hf, hg => by
    simp only [scanTokens]
    by_cases h : isCountyTok t ∧ rest ≠ []
    · rw [dif_pos h, dif_pos h]
      exact scanTokens_fuel_irrel f g rest.tail _ m
        (by simp at hf ⊢; omega) (by simp at hg ⊢; omega)
    · rw [dif_neg h, dif_neg h]
      match matchTR t with
      | some k =>
        have hs := (scanSecs_suffix k rest (ensureKey m k)).length_le
        exact scanTokens_fuel_irrel f g _ c _
          (by simp at hf ⊢; omega) (by simp at hg ⊢; omega)
      | none =>
        exact scanTokens_fuel_irrel f g rest c m
          (by simp at hf ⊢; omega) (by simp at hg ⊢; omega)

/-! ### Claims C1, C2, C3 -/

/-- Claim C1, counterexample: the identifier string `"CO0605500N0660W0"`
of the scenario is sixteen characters long, so under the fixed-offset rule
the character at position 8 is `'0'` (48), not `'N'`, and positions 9-11
read `"N06"`; the decode therefore does not yield `(55, N, 66, W)` and the
string does not match that key. -/
theorem c1_scenario_counterexample :
    decodeTR (pyStr "CO0605500N0660W0") ≠ (fmt03 55, some 78, fmt03 66, some 87) ∧
    t_dirU (pyStr "CO0605500N0660W0") = some 48 ∧
    matchesTR ⟨55, 78, 66, 87⟩ (pyStr "CO0605500N0660W0") = false := by decide

/-- Claim C1, amended: with the extra `'0'` removed — identifier
`"CO060550N0660W0"`, whose characters from position 4 on read
`"0550N0660W"` followed by filler — the fixed-offset rule decodes township
55, direction `N` (78), range 66, direction `W` (87), for every four
leading state/meridian characters and every trailing filler, and the string
matches the key `(55, N, 66, W)`. -/
theorem c1_fixed_offset_decode (a b c d : Nat) (f : List Nat) :
    decodeTR (a :: b :: c :: d :: (pyStr "0550N0660W" ++ f)) =
      (fmt03 55, some 78, fmt03 66, some 87) ∧
    matchesTR ⟨55, 78, 66, 87⟩ (a :: b :: c :: d :: (pyStr "0550N0660W" ++ f)) = true :=
  ⟨rfl, rfl⟩

/-- Claim C2: `filter_by_plssid_trs` returns a sublist of its input (hence
a subset, in input order, with each row occurring at most as often as in
the input — a row matching several keys still appears once, because the
per-key masks are OR-ed before the single filtering pass); the empty key
set selects nothing.  The embedding is a pure function, so the input
feature collection is untouched. -/
theorem c2_filter_is_ordered_subset (features : List Feature) (trs_list : List TRKey) :
    List.Sublist (filter_by_plssid_trs features trs_list) features ∧
    filter_by_plssid_trs features [] = [] ∧
    ∀ f : Feature, (filter_by_plssid_trs features trs_list).count f ≤ features.count f := by
  refine ⟨List.filter_sublist _, by simp [filter_by_plssid_trs], ?_⟩
  intro f
  exact (List.filter_sublist _).count_le f

/-- Claim C3: section-level selection refines township/range selection —
`select_sections_by_trs_and_numbers` over a mapping is a sublist of
`filter_by_plssid_trs` over that mapping's key set, and a key with an empty
section list contributes nothing (dropping it leaves the result
unchanged). -/
theorem c3_sections_subset_of_trs (features : List Feature) (m : TrsSections) :
    List.Sublist (select_sections_by_trs_and_numbers features m)
      (filter_by_plssid_trs features (keysOf m)) ∧
    ∀ k : TRKey, select_sections_by_trs_and_numbers features ((k, []) :: m) =
      select_sections_by_trs_and_numbers features m := by
  constructor
  · apply List.monotone_filter_right
    intro f hf
    simp only [List.any_eq_true] at hf ⊢
    obtain ⟨kv, hmem, hp⟩ := hf
    simp only [matchesTRS, Bool.and_eq_true] at hp
    exact ⟨kv.1, List.mem_map_of_mem _ hmem, hp.2.1⟩
  · intro k
    unfold select_sections_by_trs_and_numbers
    apply List.filter_congr
    intro f _
    simp

/-! ### Key-set characterisation of the scan -/

/-- A token equal (case-insensitively) to `"section"` starts with `s`/`S`,
never `t`/`T`, so it cannot match the township/range pattern. -/
theorem matchTR_section_none (t : Tok) (h : isSectionTok t = true) : matchTR t = none := by
  unfold isSectionTok at h
  rw [beq_iff_eq] at h
  have h2 : t.map pyLower = [115, 101, 99, 116, 105, 111, 110] := by rw [h]; rfl
  match t with
  | [] => simp at h2
  | c :: tt =>
    rw [List.map_cons] at h2
    injection h2 with hc _
    have hcu : pyUpper c ≠ 84 := by
      unfold pyLower at hc
      unfold pyUpper
      split at hc <;> split <;> omega
    simp only [matchTR]
    rw [if_pos hcu]

/-- A digit token starts with a decimal digit, never `t`/`T`, so it cannot
match the township/range pattern. -/
theorem matchTR_digit_none (t : Tok) (h : isDigitTok t = true) : matchTR t = none := by
  unfold isDigitTok at h
  rw [Bool.and_eq_true] at h
  match t with
  | [] => simp at h
  | c :: tt =>
    have hc : isDigitCode c = true := by
      have h2 := h.2
      rw [List.all_cons, Bool.and_eq_true] at h2
      exact h2.1
    rw [isDigitCode, decide_eq_true_eq] at hc
    have hcu : pyUpper c ≠ 84 := by
      unfold pyUpper
      split <;> omega
    simp only [matchTR]
    rw [if_pos hcu]

/-- `appendSec` touches only section lists, never the key sequence. -/
theorem appendSec_keys (m : TrsSections) (k : TRKey) (s : Nat) :
    keysOf (appendSec m k s) = keysOf m := by
  unfold keysOf appendSec
  rw [List.map_map]
  apply List.map_congr_left
  intro kv _
  by_cases h : kv.1 = k <;> simp [h]

/-- `ensureKey` acts on the key sequence exactly as `addKey`: a fresh key
is appended at the end, a present key leaves the mapping unchanged. -/
theorem ensureKey_keys (m : TrsSections) (k : TRKey) :
    keysOf (ensureKey m k) = addKey (keysOf m) k := by
  unfold ensureKey addKey keysOf
  have hiff : (m.any fun kv => kv.1 == k) = true ↔ k ∈ m.map Prod.fst := by
    rw [List.any_eq_true]
    constructor
    · rintro ⟨kv, hkv, he⟩
      exact List.mem_map.mpr ⟨kv, hkv, by simpa using he⟩
    · intro hm
      obtain ⟨kv, hkv, he⟩ := List.mem_map.mp hm
      exact ⟨kv, hkv, by simp [he]⟩
  by_cases h : k ∈ m.map Prod.fst
  · rw [if_pos (hiff.mpr h), if_pos h]
  · rw [if_neg (fun hc => h (hiff.mp hc)), if_neg h, List.map_append]
    rfl

/-- The inner section loop never adds or removes keys. -/
theorem scanSecs_keys (k : TRKey) :
    ∀ (toks : List Tok) (m : TrsSections), keysOf (scanSecs k toks m).1 = keysOf m
  | [], _ => rfl
  | [t], m => by by_cases h : isSectionTok t <;> simp [scanSecs, h]
  | t :: d :: rest, m => by
    by_cases h1 : isSectionTok t
    · by_cases h2 : isDigitTok d
      · rw [show scanSecs k (t :: d :: rest) m
              = scanSecs k rest (appendSec m k (digitsToNat d)) from by
            simp [scanSecs, h1, h2]]
        rw [scanSecs_keys k rest _, appendSec_keys]
      · simp [scanSecs, h1, h2]
    · simp [scanSecs, h1]

/-- The tokens the inner section loop consumes (`"Section"` keywords and
digit tokens) are never township/range tokens, so the decoded keys of the
leftover token list are those of the input. -/
theorem scanSecs_decodedKeys (k : TRKey) :
    ∀ (toks : List Tok) (m : TrsSections),
      decodedKeys (scanSecs k toks m).2 = decodedKeys toks
  | [], _ => rfl
  | [t], m => by
    by_cases h : isSectionTok t
    · simp [scanSecs, h, decodedKeys, matchTR_section_none t h]
    · simp [scanSecs, h]
  | t :: d :: rest, m => by
    by_cases h1 : isSectionTok t
    · by_cases h2 : isDigitTok d
      · rw [show scanSecs k (t :: d :: rest) m
              = scanSecs k rest (appendSec m k (digitsToNat d)) from by
            simp [scanSecs, h1, h2]]
        rw [scanSecs_decodedKeys k rest _]
        simp [decodedKeys, matchTR_section_none t h1, matchTR_digit_none d h2]
      · rw [show (scanSecs k (t :: d :: rest) m).2 = d :: rest from by
            simp [scanSecs, h1, h2]]
        simp [decodedKeys, matchTR_section_none t h1]
    · simp [scanSecs, h1]

/-- A sublist of a county-free token sequence is county-free. -/
theorem noCountyTok_sublist {l₁ l₂ : List Tok} (h : List.Sublist l₁ l₂)
    (hnc : noCountyTok l₂ = true) : noCountyTok l₁ = true := by
  rw [noCountyTok, List.all_eq_true] at hnc ⊢
  exact fun x hx => hnc x (h.subset hx)

/-- Membership in `addKey`. -/
theorem mem_addKey {ks : List TRKey} {k x : TRKey} :
    x ∈ addKey ks k ↔ x ∈ ks ∨ x = k := by
  unfold addKey
  by_cases h : k ∈ ks
  · rw [if_pos h]
    constructor
    · exact Or.inl
    · rintro (hx | rfl)
      · exact hx
      · exact h
  · rw [if_neg h]
    simp

/-- `addKey` preserves key-list distinctness. -/
theorem nodup_addKey {ks : List TRKey} (k : TRKey) (h : ks.Nodup) :
    (addKey ks k).Nodup := by
  unfold addKey
  by_cases hk : k ∈ ks
  · rwa [if_pos hk]
  · rw [if_neg hk]
    simp [List.nodup_append, h, hk]

/-- Membership after folding a key sequence into a key list. -/
theorem mem_foldl_addKey :
    ∀ (l ks : List TRKey) (x : TRKey), x ∈ l.foldl addKey ks ↔ x ∈ ks ∨ x ∈ l
  | [], ks, x => by simp
  | k :: tl, ks, x => by
    rw [List.foldl_cons, mem_foldl_addKey tl _ x, mem_addKey]
    simp only [List.mem_cons]
    tauto

/-- Folding keys preserves distinctness. -/
theorem nodup_foldl_addKey :
    ∀ (l ks : List TRKey), ks.Nodup → (l.foldl addKey ks).Nodup
  | [], _, h => h
  | k :: tl, ks, h => by
    rw [List.foldl_cons]
    exact nodup_foldl_addKey tl _ (nodup_addKey k h)

/-- On a county-free token sequence the outer scan collects exactly the
decoded township/range keys, folded left-to-right onto the keys already
present (first occurrence wins, fresh keys appended in encounter order). -/
theorem scanTokens_keys :
    ∀ (fuel : Nat) (toks : List Tok) (c : Option Tok) (m : TrsSections),
      toks.length ≤ fuel → noCountyTok toks = true →
      keysOf (scanTokens fuel toks c m).2 = (decodedKeys toks).foldl addKey (keysOf m)
  | _, [], c, m, _, _ => by simp [scanTokens, decodedKeys]
  | fuel + 1, t :: rest, c, m, hf, hnc => by
    have hct : isCountyTok t = false := by
      have h2 := (List.all_eq_true.mp hnc) t (by simp)
      simpa using h2
    have hrest : noCountyTok rest = true := by
      rw [noCountyTok, List.all_eq_true] at hnc ⊢
      exact fun x hx => hnc x (List.mem_cons_of_mem t hx)
    simp only [scanTokens]
    rw [dif_neg (by simp [hct])]
    cases hmt : matchTR t with
    | some k =>
      have hs := scanSecs_suffix k rest (ensureKey m k)
      rw [scanTokens_keys fuel _ c _ (by have := hs.length_le; simp at hf ⊢; omega)
            (noCountyTok_sublist hs.sublist hrest)]
      rw [scanSecs_keys, ensureKey_keys, scanSecs_decodedKeys]
      simp [decodedKeys, List.filterMap_cons, hmt]
    | none =>
      rw [scanTokens_keys fuel rest c m (by simp at hf ⊢; omega) hrest]
      simp [decodedKeys, List.filterMap_cons, hmt]

/-- `appendSec` appends to the looked-up section list of a present key. -/
theorem getSecs_appendSec_self :
    ∀ (m : TrsSections) (k : TRKey) (s : Nat), k ∈ keysOf m →
      getSecs (appendSec m k s) k = getSecs m k ++ [s]
  | [], k, s, h => by simp [keysOf] at h
  | kv :: tl, k, s, h => by
    by_cases he : kv.1 = k
    · simp [appendSec, getSecs, he]
    · have hk : k ∈ keysOf tl := by
        rw [keysOf, List.map_cons, List.mem_cons] at h
        rcases h with h | h
        · exact absurd h.symm he
        · exact h
      have hrec := getSecs_appendSec_self tl k s hk
      simp only [appendSec, List.map_cons] at hrec ⊢
      rw [if_neg (by simp [he])]
      simp only [getSecs]
      rw [if_neg he, if_neg he]
      exact hrec

/-- `appendSec` leaves the looked-up section list of every other key
untouched. -/
theorem getSecs_appendSec_other :
    ∀ (m : TrsSections) (k q : TRKey) (s : Nat), q ≠ k →
      getSecs (appendSec m k s) q = getSecs m q
  | [], _, _, _, _ => rfl
  | kv :: tl, k, q, s, hq => by
    have hrec := getSecs_appendSec_other tl k q s hq
    simp only [appendSec, List.map_cons] at hrec ⊢
    by_cases he : kv.1 = k
    · have hne : ¬ kv.1 = q := fun h => hq (by rw [← h]; exact he)
      rw [if_pos (by simp [he])]
      simp only [getSecs]
      rw [if_neg hne, if_neg hne]
      exact hrec
    · rw [if_neg (by simp [he])]
      simp only [getSecs]
      by_cases hq2 : kv.1 = q
      · rw [if_pos hq2, if_pos hq2]
      · rw [if_neg hq2, if_neg hq2]
        exact hrec

/-- Appending a fresh key with an empty section list changes no lookup. -/
theorem getSecs_append_fresh :
    ∀ (m : TrsSections) (k q : TRKey), getSecs (m ++ [(k, [])]) q = getSecs m q
  | [], k, q => by by_cases h : k = q <;> simp [getSecs, h]
  | kv :: tl, k, q => by
    simp only [List.cons_append, getSecs]
    by_cases h : kv.1 = q
    · rw [if_pos h, if_pos h]
    · rw [if_neg h, if_neg h]
      exact getSecs_append_fresh tl k q

/-- `ensureKey` changes no lookup (a fresh key starts with the empty
list, which is also what lookup yields for an absent key). -/
theorem getSecs_ensureKey (m : TrsSections) (k q : TRKey) :
    getSecs (ensureKey m k) q = getSecs m q := by
  unfold ensureKey
  by_cases h : (m.any fun kv => kv.1 == k) = true
  · rw [if_pos h]
  · rw [if_neg h]
    exact getSecs_append_fresh m k q

/-- With distinct keys, lookup returns exactly the section list of each
entry of the mapping. -/
theorem getSecs_of_mem :
    ∀ (m : TrsSections), (keysOf m).Nodup → ∀ kv ∈ m, getSecs m kv.1 = kv.2
  | [], _, kv, h => by simp at h
  | e :: tl, hnd, kv, h => by
    rw [keysOf, List.map_cons, List.nodup_cons] at hnd
    rcases List.mem_cons.mp h with rfl | hmem
    · simp [getSecs]
    · have hne : ¬ e.1 = kv.1 := fun he =>
        hnd.1 (he ▸ List.mem_map_of_mem Prod.fst hmem)
      simp only [getSecs]
      rw [if_neg hne]
      exact getSecs_of_mem tl hnd.2 kv hmem

/-- The tokens left over by the inner section loop coincide with its
mapping-free rendering `grabSecs`. -/
theorem scanSecs_snd_grab (k : TRKey) :
    ∀ (toks : List Tok) (m : TrsSections), (scanSecs k toks m).2 = (grabSecs toks).2
  | [], _ => rfl
  | [t], m => by by_cases h : isSectionTok t <;> simp [scanSecs, grabSecs, h]
  | t :: d :: rest, m => by
    by_cases h1 : isSectionTok t
    · by_cases h2 : isDigitTok d
      · rw [show scanSecs k (t :: d :: rest) m
              = scanSecs k rest (appendSec m k (digitsToNat d)) from by
            simp [scanSecs, h1, h2]]
        rw [scanSecs_snd_grab k rest _]
        simp [grabSecs, h1, h2]
      · simp [scanSecs, grabSecs, h1, h2]
    · simp [scanSecs, grabSecs, h1]

/-- The inner section loop appends exactly the numbers `grabSecs` collects
to the section list of its key (present in the mapping). -/
theorem scanSecs_getSecs_self (k : TRKey) :
    ∀ (toks : List Tok) (m : TrsSections), k ∈ keysOf m →
      getSecs (scanSecs k toks m).1 k = getSecs m k ++ (grabSecs toks).1
  | [], m, _ => by simp [scanSecs, grabSecs]
  | [t], m, _ => by by_cases h : isSectionTok t <;> simp [scanSecs, grabSecs, h]
  | t :: d :: rest, m, hk => by
    by_cases h1 : isSectionTok t
    · by_cases h2 : isDigitTok d
      · rw [show scanSecs k (t :: d :: rest) m
              = scanSecs k rest (appendSec m k (digitsToNat d)) from by
            simp [scanSecs, h1, h2]]
        rw [scanSecs_getSecs_self k rest _ (by rw [appendSec_keys]; exact hk)]
        rw [getSecs_appendSec_self m k (digitsToNat d) hk]
        simp [grabSecs, h1, h2]
      · simp [scanSecs, grabSecs, h1, h2]
    · simp [scanSecs, grabSecs, h1]

/-- The inner section loop leaves every other key's section list alone. -/
theorem scanSecs_getSecs_other (k q : TRKey) (hq : q ≠ k) :
    ∀ (toks : List Tok) (m : TrsSections),
      getSecs (scanSecs k toks m).1 q = getSecs m q
  | [], _ => rfl
  | [t], m => by by_cases h : isSectionTok t <;> simp [scanSecs, h]
  | t :: d :: rest, m => by
    by_cases h1 : isSectionTok t
    · by_cases h2 : isDigitTok d
      · rw [show scanSecs k (t :: d :: rest) m
              = scanSecs k rest (appendSec m k (digitsToNat d)) from by
            simp [scanSecs, h1, h2]]
        rw [scanSecs_getSecs_other k q hq rest _]
        exact getSecs_appendSec_other m k q (digitsToNat d) hq
      · simp [scanSecs, h1, h2]
    · simp [scanSecs, h1]

/-- On a county-free token sequence the scan stores at every key `q`
exactly the section list it entered with, extended by the numbers of the
`"Section" <digits>` pairs following each appearance of `q`, in encounter
order — the append-merge (accumulation) semantics of repeated keys. -/
theorem scanTokens_getSecs :
    ∀ (fuel : Nat) (toks : List Tok) (c : Option Tok) (m : TrsSections) (q : TRKey),
      toks.length ≤ fuel → noCountyTok toks = true →
      getSecs (scanTokens fuel toks c m).2 q = getSecs m q ++ secsFor q fuel toks
  | _, [], c, m, q, _, _ => by simp [scanTokens, secsFor]
  | fuel + 1, t :: rest, c, m, q, hf, hnc => by
    have hct : isCountyTok t = false := by
      have h2 := (List.all_eq_true.mp hnc) t (by simp)
      simpa using h2
    have hrest : noCountyTok rest = true := by
      rw [noCountyTok, List.all_eq_true] at hnc ⊢
      exact fun x hx => hnc x (List.mem_cons_of_mem t hx)
    simp only [scanTokens]
    rw [dif_neg (by simp [hct])]
    cases hmt : matchTR t with
    | some k =>
      have hs := scanSecs_suffix k rest (ensureKey m k)
      rw [scanTokens_getSecs fuel _ c _ q (by have := hs.length_le; simp at hf ⊢; omega)
            (noCountyTok_sublist hs.sublist hrest)]
      rw [scanSecs_snd_grab]
      by_cases hq : q = k
      · subst hq
        rw [scanSecs_getSecs_self q rest _
              (by rw [ensureKey_keys]; exact mem_addKey.mpr (Or.inr rfl))]
        rw [getSecs_ensureKey]
        simp [secsFor, hmt, List.append_assoc]
      · rw [scanSecs_getSecs_other k q hq rest _, getSecs_ensureKey]
        simp only [secsFor, hmt]
        rw [if_neg (fun h => hq h.symm)]
        simp
    | none =>
      rw [scanTokens_getSecs fuel rest c m q (by simp at hf ⊢; omega) hrest]
      simp [secsFor, hmt]

/-- On a county-free token sequence with at least one decoded key the
parser returns the scan result verbatim (the error branch is not taken). -/
theorem parse_some_of_county_free (text : List Nat)
    (hnc : noCountyTok (tokenize text) = true)
    (hne : decodedKeys (tokenize text) ≠ []) :
    parse_config_map text =
      some ⟨(runScan (tokenize text)).1,
        sortKeys ((runScan (tokenize text)).2.map Prod.fst),
        (runScan (tokenize text)).2⟩ := by
  have hkeys : keysOf (runScan (tokenize text)).2
      = (decodedKeys (tokenize text)).foldl addKey [] :=
    scanTokens_keys (tokenize text).length (tokenize text) none [] le_rfl hnc
  have hne2 : (runScan (tokenize text)).2 ≠ [] := by
    intro h
    have hk0 : keysOf (runScan (tokenize text)).2 = [] := by rw [h]; rfl
    rw [hkeys] at hk0
    obtain ⟨x, hx⟩ := List.exists_mem_of_ne_nil _ hne
    have hx2 : x ∈ (decodedKeys (tokenize text)).foldl addKey [] :=
      (mem_foldl_addKey _ _ _).mpr (Or.inr hx)
    rw [hk0] at hx2
    exact absurd hx2 (List.not_mem_nil x)
  unfold parse_config_map
  rw [if_neg (by simpa [List.isEmpty_iff] using hne2)]

/-! ### Claims C4, C5, C6 -/

/-- Claim C4: the configuration text
`"County Larimer\nT33N-R19W Section 10 Section 12"` parses to the area
label `Larimer`, exactly one key `(33, N, 19, W)` (code points 78, 87) and
the section list `[10, 12]` in encounter order. -/
theorem c4_larimer_scenario :
    parse_config_map (pyStr "County Larimer\nT33N-R19W Section 10 Section 12") =
      some ⟨some (pyStr "Larimer"), [⟨33, 78, 19, 87⟩],
        [(⟨33, 78, 19, 87⟩, [10, 12])]⟩ := by decide

/-- Claim C5, counterexample: the text `"T33N-R19W T033N-R19W"` contains
two distinct well-formed township/range tokens, yet the parsed key set has
size one — the key set size equals the number of distinct decoded keys, not
the number of distinct tokens. -/
theorem c5_distinct_tokens_counterexample :
    (tokenize (pyStr "T33N-R19W T033N-R19W")).filter (fun t => (matchTR t).isSome) =
        [pyStr "T33N-R19W", pyStr "T033N-R19W"] ∧
    pyStr "T33N-R19W" ≠ pyStr "T033N-R19W" ∧
    (parse_config_map (pyStr "T33N-R19W T033N-R19W")).map
        (fun r => (keysOf r.trs_sections).length) = some 1 := by decide

/-- Claim C5, amended: for every configuration text whose token sequence
contains no `"County"` token (a township/range token immediately after
`"County"` is consumed as the county name) and at least one token matching
the township/range pattern, parsing succeeds and the key sequence of the
result is exactly the left fold of the decoded keys (first occurrence wins),
is duplicate-free — so a repeated key has no separate entries — and its
size is the number of *distinct decoded keys* among the matching tokens;
moreover the section list stored at every key, and hence the section list
of every entry of the mapping, is exactly the concatenation in encounter
order of the section numbers following *all* appearances of that key —
repeated appearances accumulate into the one shared list. -/
theorem c5_key_set_size (text : List Nat)
    (hnc : noCountyTok (tokenize text) = true)
    (hne : decodedKeys (tokenize text) ≠ []) :
    ∃ r, parse_config_map text = some r ∧
      keysOf r.trs_sections = (decodedKeys (tokenize text)).foldl addKey [] ∧
      (keysOf r.trs_sections).Nodup ∧
      (keysOf r.trs_sections).length = (decodedKeys (tokenize text)).toFinset.card ∧
      (∀ q : TRKey, getSecs r.trs_sections q =
        secsFor q (tokenize text).length (tokenize text)) ∧
      ∀ kv ∈ r.trs_sections, kv.2 = secsFor kv.1 (tokenize text).length (tokenize text) := by
  have hkeys : keysOf (runScan (tokenize text)).2
      = (decodedKeys (tokenize text)).foldl addKey [] :=
    scanTokens_keys (tokenize text).length (tokenize text) none [] le_rfl hnc
  have hnd2 : (keysOf (runScan (tokenize text)).2).Nodup := by
    rw [hkeys]
    exact nodup_foldl_addKey _ _ List.nodup_nil
  have hsecs : ∀ q : TRKey, getSecs (runScan (tokenize text)).2 q
      = secsFor q (tokenize text).length (tokenize text) := by
    intro q
    have h := scanTokens_getSecs (tokenize text).length (tokenize text) none [] q le_rfl hnc
    simpa [getSecs] using h
  refine ⟨⟨(runScan (tokenize text)).1,
      sortKeys ((runScan (tokenize text)).2.map Prod.fst),
      (runScan (tokenize text)).2⟩,
    parse_some_of_county_free text hnc hne, hkeys, hnd2, ?_, hsecs, ?_⟩
  · rw [hkeys]
    have hnd := nodup_foldl_addKey (decodedKeys (tokenize text)) [] List.nodup_nil
    rw [← List.toFinset_card_of_nodup hnd]
    congr 1
    ext x
    simp [List.mem_toFinset, mem_foldl_addKey]
  · intro kv hkv
    rw [← getSecs_of_mem (runScan (tokenize text)).2 hnd2 kv hkv]
    exact hsecs kv.1

/-- Claim C5, witness: a concrete county-free text in which the key
`(33,N,19,W)` appears twice (also as the textual variant `t033n-r19w`),
accumulating its two section numbers into the one shared list. -/
theorem c5_key_set_size_witness :
    ∃ r, parse_config_map
        (pyStr "T33N-R19W Section 1 T34N-R19W t033n-r19w Section 2") = some r ∧
      keysOf r.trs_sections =
        (decodedKeys (tokenize
          (pyStr "T33N-R19W Section 1 T34N-R19W t033n-r19w Section 2"))).foldl addKey [] ∧
      (keysOf r.trs_sections).Nodup ∧
      (keysOf r.trs_sections).length =
        (decodedKeys (tokenize
          (pyStr "T33N-R19W Section 1 T34N-R19W t033n-r19w Section 2"))).toFinset.card ∧
      (∀ q : TRKey, getSecs r.trs_sections q =
        secsFor q (tokenize (pyStr "T33N-R19W Section 1 T34N-R19W t033n-r19w Section 2")).length
          (tokenize (pyStr "T33N-R19W Section 1 T34N-R19W t033n-r19w Section 2"))) ∧
      ∀ kv ∈ r.trs_sections, kv.2 =
        secsFor kv.1 (tokenize (pyStr "T33N-R19W Section 1 T34N-R19W t033n-r19w Section 2")).length
          (tokenize (pyStr "T33N-R19W Section 1 T34N-R19W t033n-r19w Section 2")) :=
  c5_key_set_size _ (by decide) (by decide)

/-- Claim C6, counterexample: `"County T33N-R19W"` contains a well-formed
township/range token, yet parsing fails — the token is consumed as the
county name, so the presence of a key token does not guarantee a normal
return. -/
theorem c6_county_swallows_key_counterexample :
    (tokenize (pyStr "County T33N-R19W")).any (fun t => (matchTR t).isSome) = true ∧
    parse_config_map (pyStr "County T33N-R19W") = none := by decide

/-- Claim C6, amended: `parse_config_map` fails with the configuration
error if and only if the scan collects an empty key mapping.  A
township/range token in the text does not by itself guarantee success (it
can be consumed as a county name); it does whenever the token sequence is
county-free. -/
theorem c6_fails_iff_no_keys (text : List Nat) :
    (parse_config_map text = none ↔ (runScan (tokenize text)).2 = []) ∧
    (noCountyTok (tokenize text) = true → decodedKeys (tokenize text) ≠ [] →
      parse_config_map text ≠ none) := by
  have hiff : parse_config_map text = none ↔ (runScan (tokenize text)).2 = [] := by
    unfold parse_config_map
    by_cases h : (runScan (tokenize text)).2.isEmpty
    · rw [if_pos h]
      simp only [List.isEmpty_iff] at h
      simp [h]
    · rw [if_neg h]
      simp only [List.isEmpty_iff] at h
      simp [h]
  refine ⟨hiff, ?_⟩
  intro hnc hne hno
  rw [parse_some_of_county_free text hnc hne] at hno
  exact absurd hno (by simp)

/-- Claim C6, witness: a county-free text with a key token parses
successfully, and the failure-characterisation holds on it. -/
theorem c6_fails_iff_no_keys_witness :
    (parse_config_map (pyStr "T6N-R68W") = none ↔
      (runScan (tokenize (pyStr "T6N-R68W"))).2 = []) ∧
    noCountyTok (tokenize (pyStr "T6N-R68W")) = true ∧
    decodedKeys (tokenize (pyStr "T6N-R68W")) ≠ [] ∧
    parse_config_map (pyStr "T6N-R68W") ≠ none :=
  ⟨(c6_fails_iff_no_keys _).1, by decide, by decide,
    (c6_fails_iff_no_keys _).2 (by decide) (by decide)⟩

/-! ### Claims C7, C8 -/

/-- Claim C7: `dissolve_townships_for_clip` fails with the empty-selection
error exactly when its input feature collection is empty; on non-empty
input it returns the union of all input geometries (`dissolve`) decomposed
into single parts (`explode`), for every choice of the external geometry
collaborators. -/
theorem c7_mask_from_dissolve {α β : Type} (dissolve : List α → β)
    (explode : β → List β) (townships : List α) :
    (dissolve_townships_for_clip dissolve explode townships = none ↔ townships = []) ∧
    (∀ g, dissolve_townships_for_clip dissolve explode townships = some g →
      g = explode (dissolve townships)) := by
  unfold dissolve_townships_for_clip
  by_cases h : townships.isEmpty
  · simp only [List.isEmpty_iff] at h
    simp [h]
  · simp only [List.isEmpty_iff] at h
    simp [h]

/-- Claim C7, witness: on the empty input the error is raised. -/
theorem c7_mask_from_dissolve_witness :
    dissolve_townships_for_clip (fun l : List Nat => l.length) (fun n => [n]) [] = none :=
  (c7_mask_from_dissolve (fun l : List Nat => l.length) (fun n => [n]) []).1.mpr rfl

/-- Claim C8: on a non-empty parcel layer, `clip_parcels` reprojects the
mask to the parcel layer's coordinate reference system before intersecting
exactly when the two systems differ, and intersects the untouched mask when
they agree; in both cases the parcel layer is handed to the intersection
unchanged (its system is never altered — the embedding is pure and `gclip`
receives the original `parcels`). -/
theorem c8_crs_reconciliation {α β : Type} (toCrs : GeoFrame β → Nat → GeoFrame β)
    (gclip : GeoFrame α → GeoFrame β → GeoFrame α)
    (parcels : GeoFrame α) (mask : GeoFrame β) (hne : parcels.rows ≠ []) :
    (mask.crs ≠ parcels.crs →
      clip_parcels toCrs gclip parcels mask = gclip parcels (toCrs mask parcels.crs)) ∧
    (mask.crs = parcels.crs →
      clip_parcels toCrs gclip parcels mask = gclip parcels mask) := by
  unfold clip_parcels
  rw [if_neg (by simpa [List.isEmpty_iff] using hne)]
  constructor
  · intro h
    rw [if_pos h]
  · intro h
    rw [if_neg (by simp [h])]

/-- Claim C8, witness: concrete frames with differing systems — the mask is
reprojected to the parcels' system 1 and handed to the intersection with
the parcels unchanged. -/
theorem c8_crs_reconciliation_witness :
    clip_parcels (fun g c => ⟨c, g.rows⟩) (fun p m => ⟨p.crs, p.rows ++ m.rows⟩)
      (⟨1, [10]⟩ : GeoFrame Nat) (⟨2, [5]⟩ : GeoFrame Nat) = ⟨1, [10, 5]⟩ := by
  have h := (c8_crs_reconciliation (fun g c => ⟨c, g.rows⟩)
      (fun p m => ⟨p.crs, p.rows ++ m.rows⟩) (⟨1, [10]⟩ : GeoFrame Nat)
      (⟨2, [5]⟩ : GeoFrame Nat) (by decide)).1 (by decide)
  simpa using h

/-! ### Claims C9, C10 -/

/-- Claim C9: the matcher's decoding is total (every function of this
embedding is total by construction, mirroring that the pandas slicing never
raises), and a feature whose identifier string is shorter than 14
characters yields truncated/`NaN` fragments and is never selected: every
selected feature has an identifier of at least 14 characters. -/
theorem c9_short_identifiers_never_match (features : List Feature)
    (trs_list : List TRKey) (f : Feature)
    (hf : f ∈ filter_by_plssid_trs features trs_list) :
    14 ≤ f.plssid.length := by
  by_contra hlen
  push_neg at hlen
  obtain ⟨-, hp⟩ := List.mem_filter.mp hf
  obtain ⟨k, -, hk⟩ := List.any_eq_true.mp hp
  have h13 : f.plssid.get? 13 = none := by
    rw [List.get?_eq_none]
    omega
  rw [matchesTR, Bool.and_eq_true, Bool.and_eq_true] at hk
  have hr := hk.2
  rw [r_dirU, h13] at hr
  simp at hr

/-- Claim C9, witness: a selected 15-character identifier. -/
theorem c9_short_identifiers_never_match_witness :
    14 ≤ (pyStr "CO230330N0190W0").length :=
  c9_short_identifiers_never_match [⟨pyStr "CO230330N0190W0", []⟩] [⟨33, 78, 19, 87⟩]
    ⟨pyStr "CO230330N0190W0", []⟩ (by decide)

/-- The digit expansion of a positive number is nonempty (given adequate
fuel). -/
theorem decDigitsAux_len_pos :
    ∀ (f n : Nat), 0 < n → n ≤ f → 0 < (decDigitsAux f n).length
  | f + 1, n + 1, _, _ => by simp [decDigitsAux]
  | 0, _, _, _ => by omega
  | _ + 1, 0, h1, _ => by omega

/-- Unfolding step of the digit expansion. -/
theorem decDigitsAux_eq (f n : Nat) (hf : 0 < f) (hn : 0 < n) :
    decDigitsAux f n = decDigitsAux (f - 1) (n / 10) ++ [48 + n % 10] := by
  obtain ⟨f1, rfl⟩ : ∃ f1, f = f1 + 1 := ⟨f - 1, by omega⟩
  obtain ⟨n1, rfl⟩ : ∃ n1, n = n1 + 1 := ⟨n - 1, by omega⟩
  simp [decDigitsAux]

/-- A number of at least 100 has at least three decimal digits. -/
theorem decDigitsAux_len_ge3 (f n : Nat) (h1 : 100 ≤ n) (h2 : n ≤ f) :
    3 ≤ (decDigitsAux f n).length := by
  rw [decDigitsAux_eq f n (by omega) (by omega)]
  rw [decDigitsAux_eq (f - 1) (n / 10) (by omega) (by omega)]
  have hp := decDigitsAux_len_pos (f - 1 - 1) (n / 10 / 10) (by omega) (by omega)
  simp only [List.length_append, List.length_cons, List.length_nil]
  omega

/-- `f"{s:02d}"` has at least three characters when `s > 99`. -/
theorem fmt02_len_ge3 (s : Nat) (hs : 99 < s) : 3 ≤ (fmt02 s).length := by
  unfold fmt02 pyFormat0
  rw [if_neg (by omega)]
  have h3 := decDigitsAux_len_ge3 s s (by omega) le_rfl
  simp only [List.length_append, List.length_replicate]
  omega

/-- The `FRSTDIVID[-3:-1]` slice never exceeds two characters. -/
theorem secCode2_len_le2 (fr : List Nat) : (secCode2 fr).length ≤ 2 := by
  unfold secCode2
  simp only [List.length_take, List.length_drop]
  omega

/-- Claim C10: a requested section number above 99 can never match — its
`f"{s:02d}"` code has at least three characters while the feature's section
code `FRSTDIVID[-3:-1]` has at most two — and prepending such a number to
any key's section list leaves the section-level selection unchanged (it
silently contributes nothing). -/
theorem c10_oversized_section_numbers_inert (s : Nat) (hs : 99 < s) :
    (∀ fr : List Nat, (secCode2 fr == fmt02 s) = false) ∧
    (∀ (features : List Feature) (k : TRKey) (secs : List Nat) (m : TrsSections),
      select_sections_by_trs_and_numbers features ((k, s :: secs) :: m) =
        select_sections_by_trs_and_numbers features ((k, secs) :: m)) := by
  have hfalse : ∀ fr : List Nat, (secCode2 fr == fmt02 s) = false := by
    intro fr
    rw [beq_eq_false_iff_ne]
    intro he
    have h1 := secCode2_len_le2 fr
    have h2 := fmt02_len_ge3 s hs
    rw [he] at h1
    omega
  refine ⟨hfalse, ?_⟩
  intro features k secs m
  unfold select_sections_by_trs_and_numbers
  apply List.filter_congr
  intro f _
  cases secs with
  | nil => simp [matchesTRS, hfalse]
  | cons a tl => simp [matchesTRS, hfalse]

/-- Claim C10, witness: section number 100 matches no section code, and
requesting it changes nothing on a concrete layer. -/
theorem c10_oversized_section_numbers_inert_witness :
    (secCode2 (pyStr "CO230330N0190W0SN100") == fmt02 100) = false :=
  (c10_oversized_section_numbers_inert 100 (by decide)).1 (pyStr "CO230330N0190W0SN100")
